import Mathlib

/-!
Verification of the response-parsing and scoring pipeline of
`gemini_analyzer.py` (class `GeminiAnalyzer`).

The Python code is shallowly embedded: Python values that flow through the
parser are modelled by the inductive type `PyVal`; Python floats are modelled
as exact rationals (`ℚ`); raised exceptions are modelled by `Except PyErr`;
the remote generative-text collaborator is an oracle parameter mapping the
attempt number to either a response text or a raised error.  `json.loads` is
modelled by a fuel-based JSON parser over the character list of the input.
-/

set_option allowUnsafeReducibility true
attribute [semireducible] Rat.add Rat.mul Rat.inv Rat.sub Rat.ofScientific

namespace GeminiAnalyzer

/-- Python exception classes that the analyzer's `try/except` blocks
distinguish.  `jsonDecode` is `json.JSONDecodeError`, `attrErr` is
`AttributeError` (raised by `.group` on a failed `re.search`), `typeErr` is
`TypeError`, `valueErr` is `ValueError`, `keyErr` is `KeyError`, and `other`
stands for any remaining exception class. -/
inductive PyErr where
  | jsonDecode
  | attrErr
  | typeErr
  | valueErr
  | keyErr
  | other
deriving DecidableEq, Repr

/-- Decoded Python values as produced by `json.loads` (plus `null`, which also
models Python `None`, e.g. the default of `dict.get`).  `int` and `float` are
kept apart because `isinstance(index, int)` distinguishes them; Python floats
are modelled as exact rationals. -/
inductive PyVal where
  | null
  | bool (b : Bool)
  | int (n : ℤ)
  | float (q : ℚ)
  | str (s : String)
  | list (xs : List PyVal)
  | dict (xs : List (String × PyVal))

/-- JSON whitespace characters (also the core of Python's `\s` class). -/
def isJsonWs (c : Char) : Bool :=
  c = ' ' || c = '\t' || c = '\n' || c = '\r'

/-- Whitespace for Python's regex `\s` class (ASCII part). -/
def isPyWs (c : Char) : Bool :=
  c = ' ' || c = '\t' || c = '\n' || c = '\r' || c = '\x0c' || c = '\x0b'

/-- Drop leading JSON whitespace. -/
def skipWs : List Char → List Char
  | [] => []
  | c :: cs => if isJsonWs c then skipWs cs else c :: cs

/-- Numeric value of a decimal digit character. -/
def digitVal (c : Char) : ℕ := c.toNat - 48

/-- Split a maximal run of leading decimal digits off a character list. -/
def readDigits : List Char → List Char × List Char
  | [] => ([], [])
  | c :: cs =>
    if c.isDigit then
      let (ds, rest) := readDigits cs
      (c :: ds, rest)
    else ([], c :: cs)

/-- Natural number denoted by a digit run. -/
def digitsToNat (ds : List Char) : ℕ :=
  ds.foldl (fun a c => a * 10 + digitVal c) 0

/-- Test for a hexadecimal digit character. -/
def isHexDig (c : Char) : Bool :=
  c.isDigit || ('a' ≤ c && c ≤ 'f') || ('A' ≤ c && c ≤ 'F')

/-- Numeric value of a hexadecimal digit character. -/
def hexVal (c : Char) : ℕ :=
  if c.isDigit then c.toNat - 48
  else if 'a' ≤ c ∧ c ≤ 'f' then c.toNat - 87
  else c.toNat - 55

/-- Body of a JSON string literal, after the opening quote: returns the
decoded characters and the input after the closing quote.  Unescaped control
characters and unknown escapes are rejected, as in Python's strict decoder. -/
def parseStrChars : List Char → Option (List Char × List Char)
  | [] => Option.none
  | '"' :: rest => Option.some ([], rest)
  | '\\' :: 'u' :: a :: b :: c :: d :: rest =>
    if isHexDig a && isHexDig b && isHexDig c && isHexDig d then
      (parseStrChars rest).map fun p =>
        (Char.ofNat (((hexVal a * 16 + hexVal b) * 16 + hexVal c) * 16 + hexVal d) :: p.1, p.2)
    else Option.none
  | '\\' :: e :: rest =>
    let dec : Option Char :=
      if e = '"' then Option.some '"'
      else if e = '\\' then Option.some '\\'
      else if e = '/' then Option.some '/'
      else if e = 'b' then Option.some '\x08'
      else if e = 'f' then Option.some '\x0c'
      else if e = 'n' then Option.some '\n'
      else if e = 'r' then Option.some '\r'
      else if e = 't' then Option.some '\t'
      else Option.none
    match dec with
    | Option.some ch => (parseStrChars rest).map fun p => (ch :: p.1, p.2)
    | Option.none => Option.none
  | ch :: rest =>
    if ch.toNat < 32 then Option.none
    else (parseStrChars rest).map fun p => (ch :: p.1, p.2)

/-- JSON string literal body as a `String`. -/
def parseStr (cs : List Char) : Option (String × List Char) :=
  (parseStrChars cs).map fun p => (String.mk p.1, p.2)

/-- JSON number literal: optional minus, integer part (a leading `0` must
stand alone), optional fraction, optional exponent.  A number without
fraction and exponent decodes to a Python `int`, otherwise to a `float`. -/
def parseNum (cs : List Char) : Option (PyVal × List Char) :=
  let (neg, cs1) : Bool × List Char :=
    match cs with
    | '-' :: r => (true, r)
    | _ => (false, cs)
  match cs1 with
  | [] => Option.none
  | c :: r =>
    if ¬ c.isDigit then Option.none
    else
      let (ip, rest1) : List Char × List Char :=
        if c = '0' then (['0'], r) else readDigits (c :: r)
      let intPart : ℕ := digitsToNat ip
      let (fracDigits, rest2) : Option (List Char) × List Char :=
        match rest1 with
        | '.' :: r2 =>
          let (ds, r3) := readDigits r2
          if ds.isEmpty then (Option.none, rest1) else (Option.some ds, r3)
        | _ => (Option.none, rest1)
      -- a dot not followed by a digit makes the whole literal invalid
      match rest1, fracDigits with
      | '.' :: _, Option.none => Option.none
      | _, _ =>
        let (expVal, expBad, rest3) : ℤ × Bool × List Char :=
          match rest2 with
          | 'e' :: r2 =>
            match r2 with
            | '+' :: r3 => let (ds, r4) := readDigits r3
                           if ds.isEmpty then (0, true, r2) else ((digitsToNat ds : ℤ), false, r4)
            | '-' :: r3 => let (ds, r4) := readDigits r3
                           if ds.isEmpty then (0, true, r2) else (-(digitsToNat ds : ℤ), false, r4)
            | _ => let (ds, r4) := readDigits r2
                   if ds.isEmpty then (0, true, r2) else ((digitsToNat ds : ℤ), false, r4)
          | 'E' :: r2 =>
            match r2 with
            | '+' :: r3 => let (ds, r4) := readDigits r3
                           if ds.isEmpty then (0, true, r2) else ((digitsToNat ds : ℤ), false, r4)
            | '-' :: r3 => let (ds, r4) := readDigits r3
                           if ds.isEmpty then (0, true, r2) else (-(digitsToNat ds : ℤ), false, r4)
            | _ => let (ds, r4) := readDigits r2
                   if ds.isEmpty then (0, true, r2) else ((digitsToNat ds : ℤ), false, r4)
          | _ => (0, false, rest2)
        if expBad then Option.none
        else
          let hasExp : Bool := decide (rest3 ≠ rest2)
          match fracDigits with
          | Option.none =>
            if hasExp then
              let q : ℚ := (intPart : ℚ) * (10 : ℚ) ^ expVal
              Option.some (PyVal.float (if neg then -q else q), rest3)
            else
              Option.some (PyVal.int (if neg then -(intPart : ℤ) else (intPart : ℤ)), rest3)
          | Option.some ds =>
            let q : ℚ := ((intPart : ℚ) + (digitsToNat ds : ℚ) / (10 : ℚ) ^ ds.length) * (10 : ℚ) ^ expVal
            Option.some (PyVal.float (if neg then -q else q), rest3)

/-- Comma-separated JSON array elements up to the closing bracket, with the
value parser passed as an argument and fuel spent per element. -/
def parseElems (pv : List Char → Option (PyVal × List Char)) :
    ℕ → List Char → Option (List PyVal × List Char)
  | 0, _ => Option.none
  | Nat.succ f, cs => do
    let (v, r) ← pv cs
    match skipWs r with
    | ',' :: r2 => do
      let (vs, r3) ← parseElems pv f r2
      pure (v :: vs, r3)
    | ']' :: r2 => pure ([v], r2)
    | _ => Option.none

/-- Comma-separated JSON object members up to the closing brace, with the
value parser passed as an argument and fuel spent per member. -/
def parseMembers (pv : List Char → Option (PyVal × List Char)) :
    ℕ → List Char → Option (List (String × PyVal) × List Char)
  | 0, _ => Option.none
  | Nat.succ f, cs =>
    match skipWs cs with
    | '"' :: r => do
      let (k, r1) ← parseStr r
      match skipWs r1 with
      | ':' :: r2 => do
        let (v, r3) ← pv r2
        match skipWs r3 with
        | ',' :: r4 => do
          let (ms, r5) ← parseMembers pv f r4
          pure ((k, v) :: ms, r5)
        | '\x7d' :: r4 => pure ([(k, v)], r4)
        | _ => Option.none
      | _ => Option.none
    | _ => Option.none

/-- Fuel-based JSON value parser: returns the decoded value and the unread
remainder of the input.  Fuel decreases with each nesting level and each
aggregate element, so `2 * length + 8` fuel always suffices. -/
def parseVal : ℕ → List Char → Option (PyVal × List Char)
  | 0, _ => Option.none
  | Nat.succ f, cs =>
    match skipWs cs with
    | 'n' :: 'u' :: 'l' :: 'l' :: r => Option.some (PyVal.null, r)
    | 't' :: 'r' :: 'u' :: 'e' :: r => Option.some (PyVal.bool true, r)
    | 'f' :: 'a' :: 'l' :: 's' :: 'e' :: r => Option.some (PyVal.bool false, r)
    | '"' :: r => (parseStr r).map fun p => (PyVal.str p.1, p.2)
    | '[' :: r =>
      (match skipWs r with
       | ']' :: r2 => Option.some (PyVal.list [], r2)
       | _ => (parseElems (parseVal f) f (skipWs r)).map fun p => (PyVal.list p.1, p.2))
    | '\x7b' :: r =>
      (match skipWs r with
       | '\x7d' :: r2 => Option.some (PyVal.dict [], r2)
       | _ => (parseMembers (parseVal f) f (skipWs r)).map fun p => (PyVal.dict p.1, p.2))
    | r => parseNum r

/-- Model of `json.loads`: decode one JSON document, requiring only
whitespace after it; any failure is a `json.JSONDecodeError`. -/
def loads (s : String) : Except PyErr PyVal :=
  match parseVal (2 * s.data.length + 8) s.data with
  | Option.some (v, rest) =>
    if (skipWs rest).isEmpty then Except.ok v else Except.error PyErr.jsonDecode
  | Option.none => Except.error PyErr.jsonDecode

/-- Test whether `pat` is an initial segment of `cs`. -/
def leadsWith : List Char → List Char → Bool
  | [], _ => true
  | _ :: _, [] => false
  | p :: ps, c :: cs => p = c && leadsWith ps cs

/-- Test whether `pat` occurs as a contiguous segment of `cs`
(Python's `in` on strings). -/
def hasSub (pat : List Char) : List Char → Bool
  | [] => leadsWith pat []
  | c :: r => leadsWith pat (c :: r) || hasSub pat r

/-- Python `dict` lookup for a dict built by the JSON decoder: a duplicated
key keeps its last value. -/
def dictGet (k : String) : List (String × PyVal) → Option PyVal
  | [] => Option.none
  | (k', v) :: r =>
    match dictGet k r with
    | Option.some w => Option.some w
    | Option.none => if k' = k then Option.some v else Option.none

/-- Python's `key in data` for the decoded document: key membership on
dicts, `==` membership on lists, substring test on strings, and a
`TypeError` on non-container values. -/
def pyContains (key : String) : PyVal → Except PyErr Bool
  | PyVal.dict kvs => Except.ok (kvs.any fun p => p.1 = key)
  | PyVal.list xs =>
    Except.ok (xs.any fun v => match v with | PyVal.str s => s = key | _ => false)
  | PyVal.str s => Except.ok (hasSub key.data s.data)
  | _ => Except.error PyErr.typeErr

/-- Python's `data[key]` for a string key: dict lookup (`KeyError` when
absent), `TypeError` on anything that is not a dict. -/
def pyGetItem (d : PyVal) (key : String) : Except PyErr PyVal :=
  match d with
  | PyVal.dict kvs =>
    match dictGet key kvs with
    | Option.some v => Except.ok v
    | Option.none => Except.error PyErr.keyErr
  | _ => Except.error PyErr.typeErr

/-- Strip Python whitespace from both ends (`str.strip`). -/
def pyStrip (cs : List Char) : List Char :=
  ((cs.dropWhile fun c => isPyWs c).reverse.dropWhile fun c => isPyWs c).reverse

/-- Python `float(string)`: optional sign, digits with an optional dot on
either side, optional exponent; the whole (stripped) string must be
consumed.  Exact rational semantics. -/
def parsePyFloat (s : String) : Option ℚ :=
  let cs := pyStrip s.data
  let (neg, cs1) : Bool × List Char :=
    match cs with
    | '+' :: r => (false, r)
    | '-' :: r => (true, r)
    | _ => (false, cs)
  let (ip, r1) := readDigits cs1
  let (fp, r2) : Option (List Char) × List Char :=
    match r1 with
    | '.' :: r => let (ds, r') := readDigits r; (Option.some ds, r')
    | _ => (Option.none, r1)
  if ip.isEmpty && (match fp with | Option.some ds => ds.isEmpty | Option.none => true) then
    Option.none
  else
    let mant : ℚ :=
      (digitsToNat ip : ℚ) +
        (match fp with
         | Option.some ds => (digitsToNat ds : ℚ) / (10 : ℚ) ^ ds.length
         | Option.none => 0)
    let mant := if neg then -mant else mant
    match r2 with
    | [] => Option.some mant
    | 'e' :: r | 'E' :: r =>
      let (esign, r3) : ℤ × List Char :=
        match r with
        | '+' :: rr => (1, rr)
        | '-' :: rr => (-1, rr)
        | _ => (1, r)
      let (ds, r4) := readDigits r3
      if ds.isEmpty || !r4.isEmpty then Option.none
      else Option.some (mant * (10 : ℚ) ^ (esign * (digitsToNat ds : ℤ)))
    | _ => Option.none

/-- Python `float(raw)` on a decoded value: numbers and booleans convert,
strings are parsed, everything else (`None`, lists, dicts) raises. -/
def pyFloat : PyVal → Option ℚ
  | PyVal.int n => Option.some (n : ℚ)
  | PyVal.float q => Option.some q
  | PyVal.bool b => Option.some (if b then 1 else 0)
  | PyVal.str s => parsePyFloat s
  | _ => Option.none

/-- `GeminiAnalyzer._normalize_score`: `max(0, min(100, float(raw_score)))`,
with a bare `except` returning the neutral `50.0`. -/
def normalizeScore (raw : PyVal) : ℚ :=
  match pyFloat raw with
  | Option.some q => max 0 (min 100 q)
  | Option.none => 50

/-- Round-half-to-even to an integer (Python's `round` on exact values). -/
def roundHalfEven (q : ℚ) : ℤ :=
  let n := ⌊q⌋
  let r := q - (n : ℚ)
  if r < 1 / 2 then n
  else if 1 / 2 < r then n + 1
  else if n % 2 = 0 then n else n + 1

/-- Python `round(x, 2)` in exact rational arithmetic. -/
def round2 (q : ℚ) : ℚ :=
  (roundHalfEven (q * 100) : ℚ) / 100

/-- One candidate video record, as assembled by the search/filter stage:
the fields the analyzer reads, plus arbitrary passthrough fields. -/
structure Video where
  title : String
  url : String
  like_ratio : ℚ
  views : ℕ
  views_formatted : String
  extra : List (String × String) := []
deriving DecidableEq, Repr

/-- One output record of the analyzer: the full input record (`video`, the
dict-spread `{**video, ...}`) plus the five computed fields. -/
structure Result where
  video : Video
  gemini_score : ℚ
  gemini_analysis : PyVal
  composite_score : ℚ
  like_ratio_contribution : ℚ
  views_contribution : ℚ

/-- Weight of the model relevance score (`WEIGHTS['gemini_score']`). -/
def W_gemini : ℚ := 6 / 10

/-- Weight of the engagement ratio (`WEIGHTS['like_ratio']`). -/
def W_like : ℚ := 2 / 10

/-- Weight of the normalized view count (`WEIGHTS['views']`). -/
def W_views : ℚ := 2 / 10

/-- `max(v['views'] for v in videos) if videos else 1`. -/
def maxViews : List Video → ℕ
  | [] => 1
  | v :: r => (r.map Video.views).foldl max v.views

/-- Python list indexing `videos[n]`: non-negative indices from the front,
negative indices from the back, `IndexError` (here `Option.none`) outside
`[-len, len)`. -/
def pyIndex (videos : List Video) (n : ℤ) : Option Video :=
  if 0 ≤ n then videos[n.toNat]?
  else if 0 ≤ n + (videos.length : ℤ) then videos[(n + (videos.length : ℤ)).toNat]?
  else Option.none

/-- `isinstance(index, int)` with the decoded index value: Python `bool` is
a subclass of `int`, so `true`/`false` count as `1`/`0`. -/
def pyIsInt : PyVal → Option ℤ
  | PyVal.int n => Option.some n
  | PyVal.bool b => Option.some (if b then 1 else 0)
  | _ => Option.none

/-- Body of the per-entry loop of `_format_results`: build one scored record
from one analysis entry, or skip it (`Option.none`) when the entry raises
(non-dict entry, non-int index, index `≥ len(videos)`, or `IndexError`). -/
def formatOne (videos : List Video) (maxV : ℕ) (item : PyVal) : Option Result :=
  match item with
  | PyVal.dict kvs =>
    match pyIsInt ((dictGet "index" kvs).getD PyVal.null) with
    | Option.none => Option.none
    | Option.some n =>
      if (videos.length : ℤ) ≤ n then Option.none
      else
        match pyIndex videos n with
        | Option.none => Option.none
        | Option.some video =>
          let g := normalizeScore ((dictGet "score" kvs).getD PyVal.null)
          let nv : ℚ := if 0 < maxV then (video.views : ℚ) / (maxV : ℚ) * 100 else 0
          Option.some
            { video := video
              gemini_score := g
              gemini_analysis := (dictGet "rationale" kvs).getD (PyVal.str "No rationale provided")
              composite_score :=
                round2 (W_gemini * g + W_like * video.like_ratio + W_views * nv)
              like_ratio_contribution := round2 (W_like * video.like_ratio)
              views_contribution := round2 (W_views * nv) }
  | _ => Option.none

/-- The `results` list of `_format_results` right before sorting: one record
per surviving analysis entry, in entry order. -/
def preResults (videos : List Video) (entries : List PyVal) : List Result :=
  entries.filterMap (formatOne videos (maxViews videos))

/-- Insert a record into a descending-sorted list, after every record with a
strictly larger or equal composite score that stood earlier in the input. -/
def insDesc (a : Result) : List Result → List Result
  | [] => [a]
  | b :: l =>
    if a.composite_score < b.composite_score then b :: insDesc a l
    else a :: b :: l

/-- `sorted(results, key=lambda x: x["composite_score"], reverse=True)`:
Python's sort is the stable descending sort, which is computed (uniquely, by
stability) by insertion sort that moves a record left only past records with
a strictly smaller composite score. -/
def sortByComposite : List Result → List Result
  | [] => []
  | a :: l => insDesc a (sortByComposite l)

/-- `GeminiAnalyzer._create_fallback`: one neutral record per input video,
in input order. -/
def createFallback (videos : List Video) : List Result :=
  let maxV := maxViews videos
  videos.map fun v =>
    let nv : ℚ := if 0 < maxV then (v.views : ℚ) / (maxV : ℚ) * 100 else 0
    { video := v
      gemini_score := 50
      gemini_analysis := PyVal.str "Could not analyze content"
      composite_score :=
        round2 (W_gemini * 50 + W_like * v.like_ratio + W_views * nv)
      like_ratio_contribution := round2 (W_like * v.like_ratio)
      views_contribution := round2 (W_views * nv) }

/-- The guard of `_format_results`: evaluate
`"analysis" not in data or not isinstance(data["analysis"], list)`,
returning the entry list when present and a list, `Option.none` when the
guard sends the call to the fallback, and propagating `TypeError`s. -/
def analysisField (d : PyVal) : Except PyErr (Option (List PyVal)) := do
  let b ← pyContains "analysis" d
  if b then
    match ← pyGetItem d "analysis" with
    | PyVal.list xs => pure (Option.some xs)
    | _ => pure Option.none
  else
    pure Option.none

/-- `GeminiAnalyzer._format_results`. -/
def formatResults (videos : List Video) (d : PyVal) : Except PyErr (List Result) := do
  match ← analysisField d with
  | Option.none => pure (createFallback videos)
  | Option.some entries =>
    let rs := preResults videos entries
    if rs.isEmpty then pure (createFallback videos) else pure (sortByComposite rs)

/-- Characters after the first newline, when there is one. -/
def afterNewline : List Char → Option (List Char)
  | [] => Option.none
  | '\n' :: r => Option.some r
  | _ :: r => afterNewline r

/-- Fuel-structural model of `re.sub(r'//.*?\n', '', text)`: remove every
run from a `//` to the next newline inclusive, scanning left to right. -/
def removeCommentsF : ℕ → List Char → List Char
  | 0, cs => cs
  | Nat.succ f, cs =>
    match cs with
    | '/' :: '/' :: rest =>
      (match afterNewline rest with
       | Option.some r => removeCommentsF f r
       | Option.none => '/' :: '/' :: rest)
    | c :: rest => c :: removeCommentsF f rest
    | [] => []

/-- `re.sub(r'//.*?\n', '', text)` with enough fuel. -/
def removeComments (cs : List Char) : List Char :=
  removeCommentsF cs.length cs

/-- A run of `\s*` followed by the closing character: the rest after it. -/
def wsThenClose (close : Char) : List Char → Option (List Char)
  | [] => Option.none
  | c :: r =>
    if c = close then Option.some r
    else if isPyWs c then wsThenClose close r
    else Option.none

/-- Fuel-structural model of `re.sub(r',\s*C', 'C', text)` for a closing
character `C`, scanning matches left to right, non-overlapping. -/
def subCommaCloseF (close : Char) : ℕ → List Char → List Char
  | 0, cs => cs
  | Nat.succ f, cs =>
    match cs with
    | ',' :: r =>
      (match wsThenClose close r with
       | Option.some r' => close :: subCommaCloseF close f r'
       | Option.none => ',' :: subCommaCloseF close f r)
    | c :: r => c :: subCommaCloseF close f r
    | [] => []

/-- `re.sub(r',\s*C', 'C', text)` with enough fuel. -/
def subCommaClose (close : Char) (cs : List Char) : List Char :=
  subCommaCloseF close cs.length cs

/-- `text.replace("'", '"')`. -/
def swapQuotes (cs : List Char) : List Char :=
  cs.map fun c => if c = '\'' then '"' else c

/-- Split at the first occurrence of the segment `pat`: the parts strictly
before and strictly after it. -/
def splitAtSub (pat : List Char) : List Char → Option (List Char × List Char)
  | [] => if pat.isEmpty then Option.some ([], []) else Option.none
  | c :: r =>
    if leadsWith pat (c :: r) then Option.some ([], (c :: r).drop pat.length)
    else (splitAtSub pat r).map fun p => (c :: p.1, p.2)

/-- Group 1 of `re.search(r'```json\n(.*?)\n```', text, re.DOTALL)`: the text
between the first fence opener and the first fence closer after it. -/
def extractFenced (t : String) : Option String := do
  let (_, rest) ← splitAtSub "```json\n".data t.data
  let (body, _) ← splitAtSub "\n```".data rest
  pure (String.mk body)

/-- Index of the first occurrence of a character (`str.find`). -/
def idxOfChar (c : Char) : List Char → Option ℕ
  | [] => Option.none
  | x :: r => if x = c then Option.some 0 else (idxOfChar c r).map (· + 1)

/-- Index of the last occurrence of a character (`str.rfind`). -/
def lastIdxOfChar (c : Char) (cs : List Char) : Option ℕ :=
  (idxOfChar c cs.reverse).map fun i => cs.length - 1 - i

/-- Python slice `text[a:b]` with non-negative bounds. -/
def pySlice (cs : List Char) (a b : ℕ) : List Char :=
  (cs.take b).drop a

/-- Split at the first occurrence of character `c`: the parts strictly
before and strictly after it. -/
def splitAtChar (c : Char) : List Char → Option (List Char × List Char)
  | [] => Option.none
  | x :: r =>
    if x = c then Option.some ([], r)
    else (splitAtChar c r).map fun p => (x :: p.1, p.2)

/-- Literal `"index"` (with quotes) at the head: the rest after it. -/
def idxKeyAt : List Char → Option (List Char)
  | '"' :: 'i' :: 'n' :: 'd' :: 'e' :: 'x' :: '"' :: r => Option.some r
  | _ => Option.none

/-- `\s*:\s*\d` at the head. -/
def colonDigitAt (cs : List Char) : Bool :=
  match cs.dropWhile fun c => isPyWs c with
  | ':' :: r =>
    (match r.dropWhile fun c => isPyWs c with
     | d :: _ => d.isDigit
     | [] => false)
  | _ => false

/-- The pattern `"index"\s*:\s*\d` occurs somewhere in the list. -/
def hasIdxPat : List Char → Bool
  | [] => false
  | c :: r =>
    (match idxKeyAt (c :: r) with
     | Option.some rest => colonDigitAt rest
     | Option.none => false) || hasIdxPat r

/-- Fuel-structural model of `re.findall(r'\{[^}]*"index"\s*:\s*\d+[^}]*\}',
text)`: because `[^}]` excludes the closing brace, every match runs from an
opening brace to the first closing brace after it, with the `"index"` key
pattern somewhere inside; matches are leftmost and non-overlapping. -/
def fragmentsF : ℕ → List Char → List String
  | 0, _ => []
  | Nat.succ f, cs =>
    match cs with
    | [] => []
    | '\x7b' :: r =>
      (match splitAtChar '\x7d' r with
       | Option.some (interior, after) =>
         if hasIdxPat interior then
           String.mk ('\x7b' :: interior ++ ['\x7d']) :: fragmentsF f after
         else fragmentsF f r
       | Option.none => [])
    | _ :: r => fragmentsF f r

/-- `re.findall(r'\{[^}]*"index"\s*:\s*\d+[^}]*\}', text)` with enough fuel. -/
def fragments (cs : List Char) : List String :=
  fragmentsF cs.length cs

/-- Outcome of one parsing strategy's `try` block: return a result list,
fall through to the next strategy, or propagate an uncaught exception. -/
inductive SR where
  | ret (rs : List Result)
  | fall
  | err (e : PyErr)

/-- Run a strategy body, catching exactly the listed exception classes. -/
def runCatch (c : Except PyErr (List Result)) (caught : PyErr → Bool) : SR :=
  match c with
  | Except.ok rs => SR.ret rs
  | Except.error e => if caught e then SR.fall else SR.err e

/-- Strategy 1 of `_process_response`: `json.loads(text.strip())` then
`_format_results`, catching only `json.JSONDecodeError`. -/
def strat1 (videos : List Video) (t : String) : SR :=
  runCatch ((loads (String.mk (pyStrip t.data))).bind (formatResults videos))
    fun e => e = PyErr.jsonDecode

/-- Strategy 2: extract a fenced block; a failed search raises
`AttributeError` at `.group(1)`, which the strategy catches along with
`json.JSONDecodeError`. -/
def strat2 (videos : List Video) (t : String) : SR :=
  match extractFenced t with
  | Option.none => SR.fall
  | Option.some s =>
    runCatch ((loads s).bind (formatResults videos))
      fun e => e = PyErr.jsonDecode || e = PyErr.attrErr

/-- The local `text` after strategy 3 rebinds it: quotes normalized,
comments removed, trailing separators before closers removed. -/
def repaired (t : String) : List Char :=
  subCommaClose ']' (subCommaClose '\x7d' (removeComments (swapQuotes t.data)))

/-- The substring handed to `json.loads` by strategy 3: from the first
opening brace to one past the last closing brace; when `rfind` misses, its
`-1` becomes slice end `0`; when `find` misses, the strategy is skipped. -/
def strat3Slice (t3 : List Char) : Option String :=
  match idxOfChar '\x7b' t3 with
  | Option.none => Option.none
  | Option.some s =>
    let e : ℕ :=
      match lastIdxOfChar '\x7d' t3 with
      | Option.some k => k + 1
      | Option.none => 0
    Option.some (String.mk (pySlice t3 s e))

/-- Strategy 3: decode the brace-delimited slice of the repaired text,
catching only `json.JSONDecodeError`. -/
def strat3 (videos : List Video) (t3 : List Char) : SR :=
  match strat3Slice t3 with
  | Option.none => SR.fall
  | Option.some s =>
    runCatch ((loads s).bind (formatResults videos)) fun e => e = PyErr.jsonDecode

/-- The `analysis` list collected by strategy 4: each `"index"`-bearing
brace fragment decoded independently, keeping the ones that decode. -/
def strat4Analysis (t3 : List Char) : List PyVal :=
  (fragments t3).filterMap fun s => (loads s).toOption

/-- Strategy 4: when at least one fragment decoded, wrap the collected
entries as an `analysis` document and format them; the surrounding
`except Exception` catches everything. -/
def strat4 (videos : List Video) (t3 : List Char) : SR :=
  if (strat4Analysis t3).isEmpty then SR.fall
  else
    match formatResults videos (PyVal.dict [("analysis", PyVal.list (strat4Analysis t3))]) with
    | Except.ok rs => SR.ret rs
    | Except.error _ => SR.fall

/-- `GeminiAnalyzer._process_response`: the four-strategy cascade; a
strategy that returns ends the call, an uncaught exception propagates, and
total fall-through ends in `_create_fallback`.  Strategy 3's rebinding of
`text` is visible to strategy 4. -/
def processResponse (videos : List Video) (t : String) : Except PyErr (List Result) :=
  match strat1 videos t with
  | SR.ret rs => Except.ok rs
  | SR.err e => Except.error e
  | SR.fall =>
    match strat2 videos t with
    | SR.ret rs => Except.ok rs
    | SR.err e => Except.error e
    | SR.fall =>
      match strat3 videos (repaired t) with
      | SR.ret rs => Except.ok rs
      | SR.err e => Except.error e
      | SR.fall =>
        match strat4 videos (repaired t) with
        | SR.ret rs => Except.ok rs
        | SR.err e => Except.error e
        | SR.fall => Except.ok (createFallback videos)

/-- `self.MAX_RETRIES`. -/
def MAX_RETRIES : ℕ := 3

/-- The retry loop of `analyze_videos`: current attempt index, remaining
iterations, and remote calls made so far.  An exception anywhere in the
attempt body (remote call or response processing) is caught; when attempts
are exhausted the fallback is returned.  The rate limiter and the backoff
sleeps only spend time and are not modelled. -/
def attemptsRun (remote : ℕ → Except PyErr String) (videos : List Video) :
    ℕ → ℕ → ℕ → List Result × ℕ
  | _, 0, calls => (createFallback videos, calls)
  | attempt, Nat.succ rem, calls =>
    match remote attempt with
    | Except.error _ => attemptsRun remote videos (attempt + 1) rem (calls + 1)
    | Except.ok t =>
      match processResponse videos t with
      | Except.ok rs => (rs, calls + 1)
      | Except.error _ => attemptsRun remote videos (attempt + 1) rem (calls + 1)

/-- `GeminiAnalyzer.analyze_videos`: lazy configuration (raising
`ValueError` when the API key is absent and the instance is not yet
configured), the empty-input short cut, and the retry loop.  The remote
scoring collaborator is an oracle from the attempt number to a response
text or a raised exception; the returned number counts its invocations.
The prompt only feeds the oracle and has no further behavioral effect. -/
def analyzeVideos (configured : Bool) (apiKey : Option String)
    (remote : ℕ → Except PyErr String) (videos : List Video) (_query : String) :
    Except PyErr (List Result × ℕ) :=
  if !configured && apiKey.isNone then Except.error PyErr.valueErr
  else if videos.isEmpty then Except.ok ([], 0)
  else Except.ok (attemptsRun remote videos 0 MAX_RETRIES 0)

/-- A decoded document that is a Python dict. -/
def isObj : PyVal → Bool
  | PyVal.dict _ => true
  | _ => false

/-- Modelled from the spec's scoring formula wording:
`popularityNorm = 100 * item.popularity / maxPopularityAcrossItems`
(`0` if the max is `0`); used to compare the code's arithmetic against the
spec's phrasing. -/
def popNormSpec (videos : List Video) (v : Video) : ℚ :=
  if maxViews videos = 0 then 0 else 100 * (v.views : ℚ) / (maxViews videos : ℚ)

/-- Concrete input: 100-view item, neutral engagement. -/
def vidA : Video :=
  { title := "A", url := "a", like_ratio := 0, views := 100, views_formatted := "100" }

/-- Concrete input: a second 100-view item, identical scoring inputs. -/
def vidB : Video :=
  { title := "B", url := "b", like_ratio := 0, views := 100, views_formatted := "100" }

/-- Concrete input: low-popularity item (10 views). -/
def vidL : Video :=
  { title := "L", url := "l", like_ratio := 0, views := 10, views_formatted := "10" }

/-- Concrete input: item with popularity 100 (the spec example's first item). -/
def vidP : Video :=
  { title := "P", url := "p", like_ratio := 0, views := 100, views_formatted := "100" }

/-- Concrete input: item with popularity 50 (the spec example's second item). -/
def vidQ : Video :=
  { title := "Q", url := "q", like_ratio := 0, views := 50, views_formatted := "50" }

/-- Response text with two entries for the same input index. -/
def dupIdxText : String :=
  "\x7b\"analysis\":[\x7b\"index\":0,\"score\":10\x7d,\x7b\"index\":0,\"score\":20\x7d]\x7d"

/-- Response text whose entries appear in the reverse of input order and
produce equal composite scores. -/
def revTieText : String :=
  "\x7b\"analysis\":[\x7b\"index\":1,\"score\":50\x7d,\x7b\"index\":0,\"score\":50\x7d]\x7d"

/-- Response text with a single entry whose index is `-1`. -/
def negIdxText : String :=
  "\x7b\"analysis\":[\x7b\"index\":-1,\"score\":0\x7d]\x7d"

/-- Response text realizing the spec's worked scoring example: both entries
score 80. -/
def exampleText : String :=
  "\x7b\"analysis\":[\x7b\"index\":0,\"score\":80\x7d,\x7b\"index\":1,\"score\":80\x7d]\x7d"

/-- Well-formed response whose rationale contains `//` followed later by a
newline. -/
def slashGoodText : String :=
  "\x7b\"analysis\": [\x7b\"index\": 0, \"rationale\": \"http://a\",\n\"score\": 85\x7d]\x7d"

/-- The same response as `slashGoodText` but with single-quote-delimited
strings: in scope of the heuristic-repair recovery claim. -/
def slashBadText : String :=
  "\x7b'analysis': [\x7b'index': 0, 'rationale': 'http://a',\n'score': 85\x7d]\x7d"

/-- Well-formed one-entry response. -/
def plainText : String :=
  "\x7b\"analysis\": [\x7b\"index\": 0, \"score\": 85, \"rationale\": \"ok\"\x7d]\x7d"

/-- The single-quoted, trailing-comma variant of `plainText`. -/
def quotedText : String :=
  "\x7b'analysis': [\x7b'index': 0, 'score': 85, 'rationale': 'ok'\x7d,]\x7d"

/-- The decoded document of `plainText`. -/
def plainDoc : PyVal :=
  PyVal.dict [("analysis", PyVal.list
    [PyVal.dict [("index", PyVal.int 0), ("score", PyVal.int 85), ("rationale", PyVal.str "ok")]])]

/-- One concrete analysis entry for index 0. -/
def entry0 : PyVal :=
  PyVal.dict [("index", PyVal.int 0), ("score", PyVal.int 10)]

/-- The scored record produced for `entry0` against `[vidA]`. -/
def resA : Result :=
  (formatOne [vidA] (maxViews [vidA]) entry0).get (by decide)

/-- A remote oracle that raises on every attempt. -/
def failRemote : ℕ → Except PyErr String := fun _ => Except.error PyErr.other

lemma length_insDesc (a : Result) (l : List Result) :
    (insDesc a l).length = l.length + 1 := by
  induction l with
  | nil => rfl
  | cons b l ih =>
    unfold insDesc
    split
    · simpa using ih
    · rfl

lemma length_sortByComposite (l : List Result) :
    (sortByComposite l).length = l.length := by
  induction l with
  | nil => rfl
  | cons a l ih => simp [sortByComposite, length_insDesc, ih]

lemma mem_insDesc {x a : Result} {l : List Result} :
    x ∈ insDesc a l ↔ x = a ∨ x ∈ l := by
  induction l with
  | nil => simp [insDesc]
  | cons b l ih =>
    unfold insDesc
    split
    · simp only [List.mem_cons, ih]
      tauto
    · simp only [List.mem_cons]

lemma mem_sortByComposite {x : Result} {l : List Result} :
    x ∈ sortByComposite l ↔ x ∈ l := by
  induction l with
  | nil => simp [sortByComposite]
  | cons a l ih => simp [sortByComposite, mem_insDesc, ih]

lemma sorted_insDesc (a : Result) {l : List Result}
    (h : l.Pairwise fun x y => y.composite_score ≤ x.composite_score) :
    (insDesc a l).Pairwise fun x y => y.composite_score ≤ x.composite_score := by
  induction l with
  | nil => simp [insDesc]
  | cons b l ih =>
    rw [List.pairwise_cons] at h
    unfold insDesc
    split
    · rename_i hab
      rw [List.pairwise_cons]
      refine ⟨fun y hy => ?_, ih h.2⟩
      rcases mem_insDesc.mp hy with rfl | hy
      · exact le_of_lt hab
      · exact h.1 y hy
    · rename_i hab
      push_neg at hab
      rw [List.pairwise_cons, List.pairwise_cons]
      refine ⟨fun y hy => ?_, h.1, h.2⟩
      rcases List.mem_cons.mp hy with rfl | hy
      · exact hab
      · exact le_trans (h.1 y hy) hab

lemma sorted_sortByComposite (l : List Result) :
    (sortByComposite l).Pairwise fun x y => y.composite_score ≤ x.composite_score := by
  induction l with
  | nil => simp [sortByComposite]
  | cons a l ih => exact sorted_insDesc a ih

lemma filter_insDesc (c : ℚ) (a : Result) {l : List Result}
    (h : l.Pairwise fun x y => y.composite_score ≤ x.composite_score) :
    (insDesc a l).filter (fun r => r.composite_score = c) =
      if a.composite_score = c then
        a :: l.filter (fun r => r.composite_score = c)
      else l.filter (fun r => r.composite_score = c) := by
  induction l with
  | nil => by_cases ha : a.composite_score = c <;> simp [insDesc, ha]
  | cons b l ih =>
    rw [List.pairwise_cons] at h
    unfold insDesc
    split
    · rename_i hab
      by_cases hb : b.composite_score = c
      · have ha : ¬ a.composite_score = c := by
          intro ha
          rw [ha, hb] at hab
          exact lt_irrefl c hab
        simp [List.filter_cons, hb, ha, ih h.2]
      · by_cases ha : a.composite_score = c <;>
          simp [List.filter_cons, hb, ha, ih h.2]
    · by_cases ha : a.composite_score = c <;> simp [List.filter_cons, ha]

lemma filter_sortByComposite (c : ℚ) (l : List Result) :
    (sortByComposite l).filter (fun r => r.composite_score = c) =
      l.filter fun r => r.composite_score = c := by
  induction l with
  | nil => rfl
  | cons a l ih =>
    show (insDesc a (sortByComposite l)).filter _ = _
    rw [filter_insDesc c a (sorted_sortByComposite l), ih]
    by_cases ha : a.composite_score = c <;> simp [List.filter_cons, ha]

lemma loads_error_eq {s : String} {e : PyErr} (h : loads s = Except.error e) :
    e = PyErr.jsonDecode := by
  unfold loads at h
  split at h
  · split at h <;> simp_all
  · simp_all

lemma dictGet_isSome_of_any {k : String} {kvs : List (String × PyVal)}
    (h : (kvs.any fun p => p.1 = k) = true) :
    ∃ v, dictGet k kvs = Option.some v := by
  induction kvs with
  | nil => simp at h
  | cons p r ih =>
    obtain ⟨k', v⟩ := p
    simp only [List.any_cons, Bool.or_eq_true, decide_eq_true_eq] at h
    unfold dictGet
    rcases hr : dictGet k r with _ | w
    · rcases h with h | h
      · simp [h]
      · rcases ih (by simpa using h) with ⟨v', hv'⟩
        rw [hv'] at hr
        cases hr
    · exact ⟨w, rfl⟩

lemma length_createFallback (videos : List Video) :
    (createFallback videos).length = videos.length := by
  simp [createFallback]

lemma map_video_createFallback (videos : List Video) :
    (createFallback videos).map Result.video = videos := by
  simp [createFallback, Function.comp_def]

lemma createFallback_ne_nil {videos : List Video} (h : videos ≠ []) :
    createFallback videos ≠ [] := by
  apply List.ne_nil_of_length_pos
  rw [length_createFallback]
  exact List.length_pos.mpr h

lemma formatResults_dictA (videos : List Video) (entries : List PyVal) :
    formatResults videos (PyVal.dict [("analysis", PyVal.list entries)]) =
      if (preResults videos entries).isEmpty then Except.ok (createFallback videos)
      else Except.ok (sortByComposite (preResults videos entries)) := by
  show (if (preResults videos entries).isEmpty then pure (createFallback videos)
        else pure (sortByComposite (preResults videos entries)) : Except PyErr (List Result)) = _
  split <;> rfl

lemma pyIndex_mem {videos : List Video} {n : ℤ} {v : Video}
    (h : pyIndex videos n = Option.some v) : v ∈ videos := by
  unfold pyIndex at h
  split at h
  · exact List.getElem?_mem h
  · split at h
    · exact List.getElem?_mem h
    · cases h

lemma video_mem_of_formatOne {videos : List Video} {m : ℕ} {item : PyVal} {r : Result}
    (h : formatOne videos m item = Option.some r) : r.video ∈ videos := by
  unfold formatOne at h
  split at h
  · split at h
    · cases h
    · split at h
      · cases h
      · split at h
        · cases h
        · rename_i video hidx
          cases h
          exact pyIndex_mem hidx
  · cases h

lemma analysisField_dict (kvs : List (String × PyVal)) :
    ∃ af, analysisField (PyVal.dict kvs) = Except.ok af := by
  unfold analysisField pyContains
  by_cases hb : (kvs.any fun p => p.1 = "analysis") = true
  · rcases dictGet_isSome_of_any hb with ⟨v, hv⟩
    cases v <;> simp [hb, pyGetItem, hv, Bind.bind, Except.bind, pure, Except.pure]
  · simp [Bind.bind, Except.bind, Bool.eq_false_iff.mpr hb, pure, Except.pure]

lemma formatResults_of_analysisField_none {videos : List Video} {d : PyVal}
    (h : analysisField d = Except.ok Option.none) :
    formatResults videos d = Except.ok (createFallback videos) := by
  unfold formatResults
  rw [h]
  rfl

lemma formatResults_of_analysisField_some {videos : List Video} {d : PyVal}
    {entries : List PyVal}
    (h : analysisField d = Except.ok (Option.some entries)) :
    formatResults videos d =
      if (preResults videos entries).isEmpty then Except.ok (createFallback videos)
      else Except.ok (sortByComposite (preResults videos entries)) := by
  unfold formatResults
  rw [h]
  show (if (preResults videos entries).isEmpty then pure (createFallback videos)
        else pure (sortByComposite (preResults videos entries)) : Except PyErr (List Result)) = _
  split <;> rfl

lemma formatResults_error_of {videos : List Video} {d : PyVal} {e : PyErr}
    (h : formatResults videos d = Except.error e) :
    analysisField d = Except.error e := by
  cases haf : analysisField d with
  | error e' =>
    unfold formatResults at h
    rw [haf] at h
    simp only [Bind.bind, Except.bind] at h
    cases h
    rfl
  | ok af =>
    cases af with
    | none => rw [formatResults_of_analysisField_none haf] at h; cases h
    | some entries =>
      rw [formatResults_of_analysisField_some haf] at h
      split at h <;> cases h

lemma analysisField_error_of {d : PyVal} {e : PyErr}
    (h : analysisField d = Except.error e) :
    e = PyErr.typeErr ∨ e = PyErr.keyErr := by
  cases d with
  | dict kvs =>
    rcases analysisField_dict kvs with ⟨af, haf⟩
    rw [haf] at h
    cases h
  | list xs =>
    unfold analysisField pyContains at h
    by_cases hb : (xs.any fun v => match v with | PyVal.str s => s = "analysis" | _ => false) = true <;>
      simp [hb, pyGetItem, Bind.bind, Except.bind, pure, Except.pure] at h <;> simp_all
  | str s =>
    unfold analysisField pyContains at h
    by_cases hb : hasSub "analysis".data s.data = true <;>
      simp [hb, pyGetItem, Bind.bind, Except.bind, pure, Except.pure] at h <;> simp_all
  | null => unfold analysisField pyContains at h; simp [Bind.bind, Except.bind] at h; simp_all
  | bool b => unfold analysisField pyContains at h; simp [Bind.bind, Except.bind] at h; simp_all
  | int n => unfold analysisField pyContains at h; simp [Bind.bind, Except.bind] at h; simp_all
  | float q => unfold analysisField pyContains at h; simp [Bind.bind, Except.bind] at h; simp_all

lemma formatResults_error_ne_jsonDecode {videos : List Video} {d : PyVal} {e : PyErr}
    (h : formatResults videos d = Except.error e) : e ≠ PyErr.jsonDecode := by
  rcases analysisField_error_of (formatResults_error_of h) with h' | h' <;> simp [h']

lemma formatResults_ok_ne_nil {videos : List Video} {d : PyVal} {rs : List Result}
    (hv : videos ≠ []) (h : formatResults videos d = Except.ok rs) : rs ≠ [] := by
  cases haf : analysisField d with
  | error e =>
    unfold formatResults at h
    rw [haf] at h
    simp [Bind.bind, Except.bind] at h
  | ok af =>
    cases af with
    | none =>
      rw [formatResults_of_analysisField_none haf] at h
      cases h
      exact createFallback_ne_nil hv
    | some entries =>
      rw [formatResults_of_analysisField_some haf] at h
      split at h
      · cases h
        exact createFallback_ne_nil hv
      · rename_i hne
        cases h
        intro hnil
        have hl := length_sortByComposite (preResults videos entries)
        rw [hnil] at hl
        rw [List.isEmpty_iff] at hne
        exact hne (List.length_eq_zero.mp hl.symm)

lemma formatResults_dict_ok (videos : List Video) (kvs : List (String × PyVal)) :
    ∃ rs, formatResults videos (PyVal.dict kvs) = Except.ok rs := by
  rcases analysisField_dict kvs with ⟨af, haf⟩
  cases af with
  | none => exact ⟨_, formatResults_of_analysisField_none haf⟩
  | some entries =>
    rw [formatResults_of_analysisField_some haf]
    by_cases hp : (preResults videos entries).isEmpty <;> simp [hp]

lemma runCatch_ret {c : Except PyErr (List Result)} {caught : PyErr → Bool}
    {rs : List Result} (h : runCatch c caught = SR.ret rs) : c = Except.ok rs := by
  unfold runCatch at h
  split at h
  · cases h; rfl
  · split at h <;> cases h

lemma strat1_ret {videos : List Video} {t : String} {rs : List Result}
    (h : strat1 videos t = SR.ret rs) :
    ∃ d, loads (String.mk (pyStrip t.data)) = Except.ok d ∧
      formatResults videos d = Except.ok rs := by
  have hc := runCatch_ret h
  rcases hl : loads (String.mk (pyStrip t.data)) with e | d <;> rw [hl] at hc
  · simp [Except.bind] at hc
  · exact ⟨d, rfl, by simpa [Except.bind] using hc⟩

lemma strat2_ret {videos : List Video} {t : String} {rs : List Result}
    (h : strat2 videos t = SR.ret rs) : ∃ d, formatResults videos d = Except.ok rs := by
  unfold strat2 at h
  split at h
  · cases h
  · have hc := runCatch_ret h
    rename_i s _
    rcases hl : loads s with e | d <;> rw [hl] at hc
    · simp [Except.bind] at hc
    · exact ⟨d, by simpa [Except.bind] using hc⟩

lemma strat3_ret {videos : List Video} {t3 : List Char} {rs : List Result}
    (h : strat3 videos t3 = SR.ret rs) : ∃ d, formatResults videos d = Except.ok rs := by
  unfold strat3 at h
  split at h
  · cases h
  · have hc := runCatch_ret h
    rename_i s _
    rcases hl : loads s with e | d <;> rw [hl] at hc
    · simp [Except.bind] at hc
    · exact ⟨d, by simpa [Except.bind] using hc⟩

lemma strat4_ret {videos : List Video} {t3 : List Char} {rs : List Result}
    (h : strat4 videos t3 = SR.ret rs) : ∃ d, formatResults videos d = Except.ok rs := by
  unfold strat4 at h
  split at h
  · cases h
  · split at h
    · rename_i hf
      cases h
      exact ⟨_, hf⟩
    · cases h

lemma strat4_ne_err (videos : List Video) (t3 : List Char) (e : PyErr) :
    strat4 videos t3 ≠ SR.err e := by
  unfold strat4
  split
  · simp
  · split <;> simp

lemma processResponse_ok_shape {videos : List Video} {t : String} {rs : List Result}
    (h : processResponse videos t = Except.ok rs) :
    rs = createFallback videos ∨ ∃ d, formatResults videos d = Except.ok rs := by
  unfold processResponse at h
  cases h1 : strat1 videos t <;> rw [h1] at h <;> dsimp only at h
  case ret =>
    cases h
    rcases strat1_ret h1 with ⟨d, _, hd⟩
    exact Or.inr ⟨d, hd⟩
  case err => exact Except.noConfusion h
  case fall =>
  cases h2 : strat2 videos t <;> rw [h2] at h <;> dsimp only at h
  case ret => cases h; exact Or.inr (strat2_ret h2)
  case err => exact Except.noConfusion h
  case fall =>
  cases h3 : strat3 videos (repaired t) <;> rw [h3] at h <;> dsimp only at h
  case ret => cases h; exact Or.inr (strat3_ret h3)
  case err => exact Except.noConfusion h
  case fall =>
  cases h4 : strat4 videos (repaired t) <;> rw [h4] at h <;> dsimp only at h
  case ret => cases h; exact Or.inr (strat4_ret h4)
  case err => exact Except.noConfusion h
  case fall => cases h; exact Or.inl rfl

lemma processResponse_ok_ne_nil {videos : List Video} {t : String} {rs : List Result}
    (hv : videos ≠ []) (h : processResponse videos t = Except.ok rs) : rs ≠ [] := by
  rcases processResponse_ok_shape h with hsh | ⟨d, hsh⟩
  · rw [hsh]
    exact createFallback_ne_nil hv
  · exact formatResults_ok_ne_nil hv hsh

lemma video_mem_createFallback {videos : List Video} {r : Result}
    (hr : r ∈ createFallback videos) : r.video ∈ videos := by
  simp only [createFallback, List.mem_map] at hr
  obtain ⟨v, hv, rfl⟩ := hr
  simpa using hv

lemma video_mem_of_formatResults {videos : List Video} {d : PyVal} {rs : List Result}
    (h : formatResults videos d = Except.ok rs) : ∀ r ∈ rs, r.video ∈ videos := by
  intro r hr
  cases haf : analysisField d with
  | error e =>
    unfold formatResults at h
    rw [haf] at h
    simp [Bind.bind, Except.bind] at h
  | ok af =>
    cases af with
    | none =>
      rw [formatResults_of_analysisField_none haf] at h
      cases h
      exact video_mem_createFallback hr
    | some entries =>
      rw [formatResults_of_analysisField_some haf] at h
      split at h
      · cases h
        exact video_mem_createFallback hr
      · cases h
        have hm := mem_sortByComposite.mp hr
        rcases List.mem_filterMap.mp hm with ⟨item, _, hf⟩
        exact video_mem_of_formatOne hf

lemma pyIndex_isSome_of {videos : List Video} {n : ℤ}
    (h1 : -(videos.length : ℤ) ≤ n) (h2 : n < (videos.length : ℤ)) :
    ∃ v, pyIndex videos n = Option.some v := by
  unfold pyIndex
  by_cases h0 : (0 : ℤ) ≤ n
  · rw [if_pos h0]
    exact ⟨_, List.getElem?_eq_getElem (by omega)⟩
  · rw [if_neg h0, if_pos (by omega)]
    exact ⟨_, List.getElem?_eq_getElem (by omega)⟩

lemma pyIndex_none_of {videos : List Video} {n : ℤ}
    (h : n < -(videos.length : ℤ)) : pyIndex videos n = Option.none := by
  unfold pyIndex
  rw [if_neg (by omega), if_neg (by omega)]

lemma formatOne_none_iff {videos : List Video} {m : ℕ}
    {kvs : List (String × PyVal)} {n : ℤ}
    (hn : pyIsInt ((dictGet "index" kvs).getD PyVal.null) = Option.some n) :
    (formatOne videos m (PyVal.dict kvs) = Option.none ↔
      n < -(videos.length : ℤ) ∨ (videos.length : ℤ) ≤ n) := by
  unfold formatOne
  dsimp only
  rw [hn]
  dsimp only
  constructor
  · intro h
    by_contra hc
    push_neg at hc
    obtain ⟨h1, h2⟩ := hc
    rw [if_neg (not_le.mpr h2)] at h
    rcases pyIndex_isSome_of (by omega) h2 with ⟨v, hv⟩
    rw [hv] at h
    cases h
  · intro h
    rcases h with h | h
    · rw [if_neg (not_le.mpr (by omega)), pyIndex_none_of h]
    · rw [if_pos h]

lemma formatOne_dict_none_of_bad_int {videos : List Video} {m : ℕ}
    {kvs : List (String × PyVal)}
    (hn : pyIsInt ((dictGet "index" kvs).getD PyVal.null) = Option.none) :
    formatOne videos m (PyVal.dict kvs) = Option.none := by
  unfold formatOne
  dsimp only
  rw [hn]

lemma preResults_skip {videos : List Video} {item : PyVal}
    (h : formatOne videos (maxViews videos) item = Option.none)
    (l1 l2 : List PyVal) :
    preResults videos (l1 ++ item :: l2) = preResults videos (l1 ++ l2) := by
  simp [preResults, List.filterMap_append, List.filterMap_cons, h]

lemma attemptsRun_shape (remote : ℕ → Except PyErr String) (videos : List Video) :
    ∀ rem attempt calls,
      (attemptsRun remote videos attempt rem calls).1 = createFallback videos ∨
        ∃ t, processResponse videos t =
          Except.ok (attemptsRun remote videos attempt rem calls).1 := by
  intro rem
  induction rem with
  | zero => intro attempt calls; exact Or.inl rfl
  | succ rem ih =>
    intro attempt calls
    have he : attemptsRun remote videos attempt (Nat.succ rem) calls =
        (match remote attempt with
         | Except.error _ => attemptsRun remote videos (attempt + 1) rem (calls + 1)
         | Except.ok t =>
           match processResponse videos t with
           | Except.ok rs => (rs, calls + 1)
           | Except.error _ =>
             attemptsRun remote videos (attempt + 1) rem (calls + 1)) := rfl
    rw [he]
    cases hr : remote attempt with
    | error e =>
      dsimp only
      exact ih (attempt + 1) (calls + 1)
    | ok t =>
      dsimp only
      cases hp : processResponse videos t with
      | ok rs => exact Or.inr ⟨t, hp⟩
      | error e => exact ih (attempt + 1) (calls + 1)

lemma analyzeVideos_ok_shape {cfg : Bool} {key : Option String}
    {remote : ℕ → Except PyErr String} {videos : List Video} {q : String}
    {rs : List Result} {n : ℕ}
    (h : analyzeVideos cfg key remote videos q = Except.ok (rs, n)) :
    rs = [] ∨ rs = createFallback videos ∨
      ∃ t, processResponse videos t = Except.ok rs := by
  unfold analyzeVideos at h
  split at h
  · cases h
  · split at h
    · cases h
      exact Or.inl rfl
    · have h' := Except.ok.inj h
      have hfst : rs = (attemptsRun remote videos 0 MAX_RETRIES 0).1 := by
        rw [h']
      rcases attemptsRun_shape remote videos MAX_RETRIES 0 0 with hsh | ⟨t, hsh⟩
      · exact Or.inr (Or.inl (hfst.trans hsh))
      · exact Or.inr (Or.inr ⟨t, hfst ▸ hsh⟩)

lemma nv_eq_popNormSpec (videos : List Video) (v : Video) :
    (if 0 < maxViews videos then (v.views : ℚ) / (maxViews videos : ℚ) * 100 else 0) =
      popNormSpec videos v := by
  unfold popNormSpec
  rcases Nat.eq_zero_or_pos (maxViews videos) with h0 | h0
  · simp [h0]
  · rw [if_pos h0, if_neg (Nat.pos_iff_ne_zero.mp h0)]
    ring

lemma runCatch_of_obj (videos : List Video) {s : String}
    (hobj : ∀ d, loads s = Except.ok d → isObj d = true)
    (caught : PyErr → Bool) (hc : caught PyErr.jsonDecode = true) :
    (∃ rs, runCatch ((loads s).bind (formatResults videos)) caught = SR.ret rs) ∨
      runCatch ((loads s).bind (formatResults videos)) caught = SR.fall := by
  rcases hl : loads s with e | d
  · right
    have he := loads_error_eq hl
    subst he
    simp [Except.bind, runCatch, hc]
  · have hobj' := hobj d hl
    cases d <;> simp [isObj] at hobj'
    rename_i kvs
    rcases formatResults_dict_ok videos kvs with ⟨rs, hrs⟩
    exact Or.inl ⟨rs, by simp [Except.bind, runCatch, hrs]⟩

lemma processResponse_ok_of_objs (videos : List Video) {t : String}
    (h1 : ∀ d, loads (String.mk (pyStrip t.data)) = Except.ok d → isObj d = true)
    (h2 : ∀ s, extractFenced t = Option.some s →
      ∀ d, loads s = Except.ok d → isObj d = true)
    (h3 : ∀ s, strat3Slice (repaired t) = Option.some s →
      ∀ d, loads s = Except.ok d → isObj d = true) :
    ∃ rs, processResponse videos t = Except.ok rs := by
  unfold processResponse
  rcases runCatch_of_obj videos h1
      (fun e => e = PyErr.jsonDecode) (by simp) with ⟨rs, hrs⟩ | hfall <;>
    rw [show strat1 videos t =
        runCatch ((loads (String.mk (pyStrip t.data))).bind (formatResults videos))
          (fun e => e = PyErr.jsonDecode) from rfl]
  · rw [hrs]
    exact ⟨rs, rfl⟩
  · rw [hfall]
    dsimp only
    have hs2 : strat2 videos t = SR.fall ∨
        ∃ rs, strat2 videos t = SR.ret rs := by
      unfold strat2
      cases hf : extractFenced t with
      | none => exact Or.inl rfl
      | some s =>
        rcases runCatch_of_obj videos (h2 s hf)
            (fun e => e = PyErr.jsonDecode || e = PyErr.attrErr) (by simp)
          with ⟨rs, hrs⟩ | hfall2
        · exact Or.inr ⟨rs, hrs⟩
        · exact Or.inl hfall2
    rcases hs2 with hs2 | ⟨rs2, hs2⟩
    · rw [hs2]
      dsimp only
      have hs3 : strat3 videos (repaired t) = SR.fall ∨
          ∃ rs, strat3 videos (repaired t) = SR.ret rs := by
        unfold strat3
        cases hf : strat3Slice (repaired t) with
        | none => exact Or.inl rfl
        | some s =>
          rcases runCatch_of_obj videos (h3 s hf)
              (fun e => e = PyErr.jsonDecode) (by simp)
            with ⟨rs, hrs⟩ | hfall3
          · exact Or.inr ⟨rs, hrs⟩
          · exact Or.inl hfall3
      rcases hs3 with hs3 | ⟨rs3, hs3⟩
      · rw [hs3]
        dsimp only
        cases hs4 : strat4 videos (repaired t) with
        | ret rs => exact ⟨rs, rfl⟩
        | fall => exact ⟨createFallback videos, rfl⟩
        | err e => exact absurd hs4 (strat4_ne_err videos (repaired t) e)
      · rw [hs3]
        exact ⟨rs3, rfl⟩
    · rw [hs2]
      exact ⟨rs2, rfl⟩

lemma attemptsRun_three_fails {remote : ℕ → Except PyErr String}
    {videos : List Video}
    (h0 : ∃ e, remote 0 = Except.error e) (h1 : ∃ e, remote 1 = Except.error e)
    (h2 : ∃ e, remote 2 = Except.error e) :
    attemptsRun remote videos 0 3 0 = (createFallback videos, 3) := by
  obtain ⟨e0, h0⟩ := h0
  obtain ⟨e1, h1⟩ := h1
  obtain ⟨e2, h2⟩ := h2
  have s0 : attemptsRun remote videos 0 3 0 =
      (match remote 0 with
       | Except.error _ => attemptsRun remote videos 1 2 1
       | Except.ok t =>
         match processResponse videos t with
         | Except.ok rs => (rs, 1)
         | Except.error _ => attemptsRun remote videos 1 2 1) := rfl
  have s1 : attemptsRun remote videos 1 2 1 =
      (match remote 1 with
       | Except.error _ => attemptsRun remote videos 2 1 2
       | Except.ok t =>
         match processResponse videos t with
         | Except.ok rs => (rs, 2)
         | Except.error _ => attemptsRun remote videos 2 1 2) := rfl
  have s2 : attemptsRun remote videos 2 1 2 =
      (match remote 2 with
       | Except.error _ => attemptsRun remote videos 3 0 3
       | Except.ok t =>
         match processResponse videos t with
         | Except.ok rs => (rs, 3)
         | Except.error _ => attemptsRun remote videos 3 0 3) := rfl
  rw [s0, h0]
  dsimp only
  rw [s1, h1]
  dsimp only
  rw [s2, h2]
  rfl

/-- C1 (counterexample): the claim "the list returned has length at most
`len(items)` ... for every possible parsed analysis entry list (including
lists with repeated or duplicate index values)" is false: against the single
input `[vidA]`, a response whose analysis list repeats index `0` twice
produces two scored records — one per surviving entry — so the output is
longer than the input. -/
theorem c1_counterexample :
    (processResponse [vidA] dupIdxText).map List.length = Except.ok 2 ∧
      [vidA].length = 1 :=
  ⟨rfl, rfl⟩

/-- C1 (amended): the scorer emits one record per surviving analysis entry
(duplicate indices may thus exceed `len(items)`), or one neutral record per
item when no entry survives; hence the output length never exceeds
`max (len(entries), len(items))`, and for entry lists without duplicate
accepted indices it is at most `len(items)`. -/
theorem c1_amended (videos : List Video) (entries : List PyVal) (rs : List Result)
    (h : formatResults videos (PyVal.dict [("analysis", PyVal.list entries)]) =
      Except.ok rs) :
    rs.length ≤ max entries.length videos.length := by
  rw [formatResults_dictA] at h
  split at h
  · cases h
    rw [length_createFallback]
    exact le_max_right _ _
  · cases h
    rw [length_sortByComposite]
    exact le_trans (List.length_filterMap_le _ _) (le_max_left _ _)

/-- C1 (witness): the amended bound applied to the concrete empty entry
list against `[vidA]`. -/
theorem c1_witness :
    (createFallback [vidA]).length ≤ max ([] : List PyVal).length [vidA].length :=
  c1_amended [vidA] [] _ rfl

/-- C2 (counterexample): the claim "any two results with equal
`compositeScore` appear in the same relative order as their corresponding
items in the input list" is false twice over.  First, with two identical
items, an analysis list whose entries come in the order index 1, index 0
and tie at composite 50 yields the item at input position 1 (`"B"`) before
the item at input position 0 (`"A"`): ties follow entry order, not input
order.  Second, when the remote collaborator raises on every attempt,
`analyze` returns the fallback list in input order, here composites
`32 < 50` — not sorted descending at all. -/
theorem c2_counterexample :
    ((processResponse [vidA, vidB] revTieText).map
        (List.map fun r => (r.video.title, r.composite_score)) =
      Except.ok [("B", 50), ("A", 50)]) ∧
    ((analyzeVideos true Option.none failRemote [vidL, vidA] "q").map
        (fun p => p.1.map fun r => (r.video.title, r.composite_score)) =
      Except.ok [("L", 32), ("A", 50)]) :=
  ⟨rfl, rfl⟩

/-- C2 (amended): when at least one entry survives, the scorer's output is
sorted descending by `compositeScore` and equal-score records keep the
relative order of their entries in the parsed analysis list (witnessed by
filtering at each composite value); when no entry survives, the output is
the fallback list in input order (not resorted). -/
theorem c2_amended (videos : List Video) (entries : List PyVal) (rs : List Result)
    (h : formatResults videos (PyVal.dict [("analysis", PyVal.list entries)]) =
      Except.ok rs) :
    (preResults videos entries = [] → rs = createFallback videos) ∧
    (preResults videos entries ≠ [] →
      rs.Pairwise (fun a b => b.composite_score ≤ a.composite_score) ∧
      ∀ c : ℚ, rs.filter (fun r => r.composite_score = c) =
        (preResults videos entries).filter fun r => r.composite_score = c) := by
  rw [formatResults_dictA] at h
  constructor
  · intro hp
    rw [if_pos (List.isEmpty_iff.mpr hp)] at h
    exact (Except.ok.inj h).symm
  · intro hp
    rw [if_neg (by simpa [List.isEmpty_iff] using hp)] at h
    have hrs := (Except.ok.inj h).symm
    subst hrs
    exact ⟨sorted_sortByComposite _, fun c => filter_sortByComposite c _⟩

/-- C2 (witness): the amended sortedness applied to a concrete singleton
entry list against `[vidA]`. -/
theorem c2_witness :
    [resA].Pairwise (fun a b => b.composite_score ≤ a.composite_score) :=
  ((c2_amended [vidA] [entry0] [resA] rfl).2
    (by
      intro hc
      exact absurd (congrArg List.length hc) (by decide))).1

/-- C4 (counterexample): the claim "any index outside `[0, len(items))` is
discarded" is false: against two inputs, the single entry with index `-1`
is accepted via Python negative indexing and scores the *last* item
(`"B"`, with the entry's normalized score `0`), instead of being discarded
— which, as the only entry, would have forced the two-record neutral
fallback. -/
theorem c4_counterexample :
    ((processResponse [vidA, vidB] negIdxText).map
        (List.map fun r => (r.video.title, r.gemini_score)) =
      Except.ok [("B", 0)]) ∧
    (createFallback [vidA, vidB]).length = 2 :=
  ⟨rfl, rfl⟩

/-- C4 (amended): an entry whose `index` field is not int-like is discarded;
an int-like index is discarded exactly when it lies outside
`[-len(items), len(items))` — indices in `[-len(items), 0)` are accepted and
reference items from the end (Python negative indexing).  Each discarded
entry is skipped individually without aborting the batch, and if every
entry is discarded the result is the fallback list, one neutral record per
item. -/
theorem c4_amended :
    (∀ (videos : List Video) (m : ℕ) (kvs : List (String × PyVal)) (n : ℤ),
      pyIsInt ((dictGet "index" kvs).getD PyVal.null) = Option.some n →
      (formatOne videos m (PyVal.dict kvs) = Option.none ↔
        n < -(videos.length : ℤ) ∨ (videos.length : ℤ) ≤ n)) ∧
    (∀ (videos : List Video) (item : PyVal) (l1 l2 : List PyVal),
      formatOne videos (maxViews videos) item = Option.none →
      preResults videos (l1 ++ item :: l2) = preResults videos (l1 ++ l2)) ∧
    (∀ (videos : List Video) (entries : List PyVal),
      (∀ item ∈ entries, formatOne videos (maxViews videos) item = Option.none) →
      formatResults videos (PyVal.dict [("analysis", PyVal.list entries)]) =
        Except.ok (createFallback videos)) := by
  refine ⟨fun videos m kvs n hn => formatOne_none_iff hn,
    fun videos item l1 l2 h => preResults_skip h l1 l2,
    fun videos entries hall => ?_⟩
  rw [formatResults_dictA,
    if_pos (List.isEmpty_iff.mpr
      (show preResults videos entries = [] from List.filterMap_eq_nil_iff.mpr hall))]

/-- C4 (witness): the amended discard rule applied to the concrete entry
`{"index": 5}` against the single input `[vidA]`. -/
theorem c4_witness :
    formatOne [vidA] (maxViews [vidA]) (PyVal.dict [("index", PyVal.int 5)]) =
      Option.none :=
  (c4_amended.1 [vidA] (maxViews [vidA]) [("index", PyVal.int 5)] 5 rfl).mpr
    (by decide)

/-- C3 (counterexample): the claim "processing the response never propagates
an exception to the caller ... never in a raised error or a retry of the
remote call" is false: the response text `"5"` decodes successfully in
strategy 1, but the shape check `"analysis" not in data` raises a
`TypeError` on the integer document; strategy 1 catches only
`json.JSONDecodeError`, so the exception escapes `_process_response`, and
the orchestrator's retry loop catches it and retries the remote call —
against an oracle that always answers `"5"`, all three attempts are
consumed before falling back. -/
theorem c3_counterexample :
    processResponse [vidA] "5" = Except.error PyErr.typeErr ∧
    analyzeVideos true Option.none (fun _ => Except.ok "5") [vidA] "q" =
      Except.ok (createFallback [vidA], 3) :=
  ⟨rfl, rfl⟩

/-- C3 (amended): for non-empty input, every malformed or unparseable text
is handled inside the cascade, and shape-invalid *dict* documents (missing
or non-list `analysis`) end in the fallback, so processing returns a
non-empty result list whenever each document the cascade decodes is a dict;
a decoded non-dict document can instead raise (e.g. `TypeError`), which
escapes to the orchestrator's retry loop — yet `analyze` itself still never
propagates an exception, as the loop catches everything and falls back. -/
theorem c3_amended (videos : List Video) (t : String)
    (remote : ℕ → Except PyErr String) (q : String) (key : Option String)
    (hv : videos ≠ [])
    (h1 : ∀ d, loads (String.mk (pyStrip t.data)) = Except.ok d → isObj d = true)
    (h2 : ∀ s, extractFenced t = Option.some s →
      ∀ d, loads s = Except.ok d → isObj d = true)
    (h3 : ∀ s, strat3Slice (repaired t) = Option.some s →
      ∀ d, loads s = Except.ok d → isObj d = true) :
    (processResponse videos t).isOk = true ∧
    (processResponse videos t).toOption.getD [] ≠ [] ∧
    (analyzeVideos true key remote videos q).isOk = true := by
  rcases processResponse_ok_of_objs videos h1 h2 h3 with ⟨rs, hrs⟩
  refine ⟨by rw [hrs]; rfl, ?_, ?_⟩
  · rw [hrs]
    simpa [Except.toOption] using processResponse_ok_ne_nil hv hrs
  · unfold analyzeVideos
    rw [if_neg (by simp), if_neg (by simpa [List.isEmpty_iff] using hv)]
    rfl

/-- C3 (witness): the amended guarantee applied to the concrete garbage
text `"x"` (no decode succeeds anywhere in the cascade) against `[vidA]`. -/
theorem c3_witness :
    (processResponse [vidA] "x").isOk = true ∧
    (processResponse [vidA] "x").toOption.getD [] ≠ [] ∧
    (analyzeVideos true Option.none failRemote [vidA] "q").isOk = true :=
  c3_amended [vidA] "x" failRemote "q" Option.none (List.cons_ne_nil _ _)
    (fun d h => nomatch h) (fun s hs => nomatch hs) (fun s hs => nomatch hs)

/-- C5: `_normalize_score` never raises and always lands in `[0, 100]`: when
the raw value converts to a number the result is that number clamped to
`[0, 100]`, and on any conversion failure (`None`, non-numeric string,
list, dict) the result is exactly `50.0`. -/
theorem c5_normalize (raw : PyVal) :
    (0 ≤ normalizeScore raw ∧ normalizeScore raw ≤ 100) ∧
    (∀ q : ℚ, pyFloat raw = Option.some q →
      normalizeScore raw = max 0 (min 100 q)) ∧
    (pyFloat raw = Option.none → normalizeScore raw = 50) := by
  unfold normalizeScore
  cases hf : pyFloat raw with
  | none =>
    refine ⟨⟨by norm_num, by norm_num⟩, fun q hq => ?_, fun _ => rfl⟩
    cases hq
  | some q =>
    refine ⟨⟨le_max_left 0 _, max_le (by norm_num) (min_le_left _ _)⟩,
      fun q' hq' => ?_, fun hq' => ?_⟩
    · cases hq'
      rfl
    · cases hq'

/-- C5 (witness): the clamp branch applied to the concrete raw value
`150.0`, which normalizes to `100`. -/
theorem c5_witness :
    normalizeScore (PyVal.float 150) = max 0 (min 100 150) :=
  (c5_normalize (PyVal.float 150)).2.1 150 rfl

/-- C6: each matched entry's `compositeScore` is
`round2(0.6*relevanceScore + 0.2*engagementRatio + 0.2*popularityNorm)`
with `popularityNorm = 100 * popularity / maxPopularity` (0 when the max is
0, as the spec words it); in particular, for the spec's example — items
with popularity 100 and 50, both scored 80 with engagement 0 — the
composites are 68.0 and 58.0 and the popularity-100 item ranks first. -/
theorem c6_composite :
    (∀ (videos : List Video) (item : PyVal) (r : Result),
      formatOne videos (maxViews videos) item = Option.some r →
      r.composite_score =
        round2 ((6 : ℚ) / 10 * r.gemini_score + 2 / 10 * r.video.like_ratio +
          2 / 10 * popNormSpec videos r.video)) ∧
    ((processResponse [vidP, vidQ] exampleText).map
        (List.map fun r => (r.video.title, r.composite_score)) =
      Except.ok [("P", 68), ("Q", 58)]) := by
  refine ⟨?_, rfl⟩
  intro videos item r h
  unfold formatOne at h
  split at h
  · split at h
    · cases h
    · split at h
      · cases h
      · split at h
        · cases h
        · cases h
          dsimp only
          rw [nv_eq_popNormSpec]
          rfl
  · cases h

/-- C6 (witness): the formula applied to the concrete record built from
`entry0` against `[vidA]`. -/
theorem c6_witness :
    resA.composite_score =
      round2 ((6 : ℚ) / 10 * resA.gemini_score + 2 / 10 * resA.video.like_ratio +
        2 / 10 * popNormSpec [vidA] resA.video) :=
  c6_composite.1 [vidA] entry0 resA rfl

/-- C7: when the remote call raises on all 3 attempts, `analyze` returns
exactly the fallback: one record per input item, each with relevance score
`50`, the fixed `"Could not analyze content"` rationale, and the composite
score computed by the same weighted formula as the normal path (at
relevance 50). -/
theorem c7_fallback (videos : List Video) (q : String) (key : Option String)
    (remote : ℕ → Except PyErr String) (hv : videos ≠ [])
    (hfail : ∀ k, k < MAX_RETRIES → ∃ e, remote k = Except.error e) :
    analyzeVideos true key remote videos q =
      Except.ok (createFallback videos, 3) ∧
    (createFallback videos).length = videos.length ∧
    ∀ r ∈ createFallback videos,
      r.gemini_score = 50 ∧
      r.gemini_analysis = PyVal.str "Could not analyze content" ∧
      r.composite_score =
        round2 ((6 : ℚ) / 10 * 50 + 2 / 10 * r.video.like_ratio +
          2 / 10 * popNormSpec videos r.video) := by
  refine ⟨?_, length_createFallback videos, ?_⟩
  · unfold analyzeVideos MAX_RETRIES
    rw [if_neg (by simp), if_neg (by simpa [List.isEmpty_iff] using hv)]
    rw [attemptsRun_three_fails (hfail 0 (by decide)) (hfail 1 (by decide))
      (hfail 2 (by decide))]
  · intro r hr
    simp only [createFallback, List.mem_map] at hr
    obtain ⟨v, _, rfl⟩ := hr
    refine ⟨rfl, rfl, ?_⟩
    dsimp only
    rw [nv_eq_popNormSpec]
    rfl

/-- C7 (witness): the all-attempts-fail guarantee applied to the concrete
always-raising oracle against `[vidA]`. -/
theorem c7_witness :
    analyzeVideos true Option.none failRemote [vidA] "q" =
      Except.ok (createFallback [vidA], 3) :=
  (c7_fallback [vidA] "q" Option.none failRemote (List.cons_ne_nil _ _)
    (fun k _ => ⟨PyErr.other, rfl⟩)).1

/-- C8: with configuration established (the instance already configured or
the API key present), `analyze([], query)` returns the empty list without
ever invoking the remote scoring collaborator (zero remote calls). -/
theorem c8_empty (configured : Bool) (key : Option String)
    (remote : ℕ → Except PyErr String) (q : String)
    (h : configured = true ∨ key.isSome = true) :
    analyzeVideos configured key remote [] q = Except.ok ([], 0) := by
  have hc : (!configured && key.isNone) = false := by
    rcases h with rfl | hk
    · rfl
    · cases key with
      | none => simp at hk
      | some k => simp
  unfold analyzeVideos
  rw [if_neg (by simp [hc])]
  rfl

/-- C8 (witness): the empty-input short cut applied to a configured
instance with an always-raising oracle: even then, no call is made. -/
theorem c8_witness :
    analyzeVideos true Option.none failRemote [] "q" = Except.ok ([], 0) :=
  c8_empty true Option.none failRemote "q" (Or.inl rfl)

/-- C9 (counterexample): the claim "every well-formed-except-quoting
response is recovered by strategy 3 with the same entries" is false: the
texts `slashGoodText`/`slashBadText` differ only in string delimiters
(single vs double quotes), yet the single-quoted variant is *not* recovered
— strategy 3's comment-stripping regex removes from the `//` inside the
rationale string `'http://a'` through the following newline, corrupting the
document, so every strategy fails and the call falls back to neutral
records instead of the well-formed equivalent's entry (score 85). -/
theorem c9_counterexample :
    ((processResponse [vidA] slashGoodText).map
        (List.map fun r => (r.gemini_score, r.composite_score)) =
      Except.ok [(85, 71)]) ∧
    processResponse [vidA] slashBadText = Except.ok (createFallback [vidA]) ∧
    (createFallback [vidA]).map (fun r => (r.gemini_score, r.composite_score)) =
      [(50, 50)] :=
  ⟨rfl, rfl, rfl⟩

/-- C9 (amended): whenever the strategy 3 repairs (quote normalization,
comment stripping, trailing-separator removal) map the variant text `t'`
exactly back to a well-formed document `t` — which holds for
single-quote/trailing-comma variants whose string contents contain no
quote characters and no `//` followed by a newline — and strategies 1 and 2
fall through on `t'`, processing `t'` gives exactly the same outcome as
processing `t`, namely formatting the decoded document `d`. -/
theorem c9_amended (videos : List Video) (t t' : String) (d : PyVal)
    (hl : loads t = Except.ok d)
    (hstrip : pyStrip t.data = t.data)
    (hfail1 : loads (String.mk (pyStrip t'.data)) = Except.error PyErr.jsonDecode)
    (hfence : extractFenced t' = Option.none)
    (hfix : repaired t' = t.data)
    (hslice : strat3Slice t.data = Option.some t) :
    processResponse videos t' = formatResults videos d ∧
    processResponse videos t = formatResults videos d := by
  have hloads : loads (String.mk (pyStrip t.data)) = Except.ok d := by
    rw [hstrip]
    exact hl
  have hcatch : ∀ e, formatResults videos d = Except.error e →
      (decide (e = PyErr.jsonDecode)) = false := by
    intro e he
    have := formatResults_error_ne_jsonDecode he
    simp [this]
  constructor
  · unfold processResponse
    have hs1 : strat1 videos t' = SR.fall := by
      unfold strat1 runCatch
      rw [hfail1]
      rfl
    rw [hs1]
    dsimp only
    have hs2 : strat2 videos t' = SR.fall := by
      unfold strat2
      rw [hfence]
    rw [hs2]
    dsimp only
    have hs3 : strat3 videos (repaired t') =
        runCatch ((loads t).bind (formatResults videos))
          fun e => e = PyErr.jsonDecode := by
      unfold strat3
      rw [hfix, hslice]
    rw [hs3, hl]
    cases hfr : formatResults videos d with
    | ok rs =>
      rw [show (Except.ok d).bind (formatResults videos) = formatResults videos d
        from rfl, hfr]
      rfl
    | error e =>
      rw [show (Except.ok d).bind (formatResults videos) = formatResults videos d
        from rfl, hfr]
      simp [runCatch, hcatch e hfr]
  · unfold processResponse
    have hs1 : strat1 videos t =
        runCatch ((loads t).bind (formatResults videos))
          fun e => e = PyErr.jsonDecode := by
      unfold strat1
      rw [hloads, hl]
    rw [hs1, hl]
    cases hfr : formatResults videos d with
    | ok rs =>
      rw [show (Except.ok d).bind (formatResults videos) = formatResults videos d
        from rfl, hfr]
      rfl
    | error e =>
      rw [show (Except.ok d).bind (formatResults videos) = formatResults videos d
        from rfl, hfr]
      simp [runCatch, hcatch e hfr]

/-- C9 (witness): the recovery guarantee applied to the concrete
single-quoted, trailing-comma variant `quotedText` of `plainText`. -/
theorem c9_witness :
    processResponse [vidA] quotedText = formatResults [vidA] plainDoc ∧
    processResponse [vidA] plainText = formatResults [vidA] plainDoc :=
  c9_amended [vidA] plainText quotedText plainDoc rfl rfl rfl rfl rfl rfl

/-- C10: the pure-value embedding passes the input records through by
value, so a call can never mutate them; moreover every record the analyzer
returns embeds one of the input records whole — all fields other than the
five computed output fields carried over unchanged — both on the scoring
path and on the fallback path (where the embedded records are exactly the
inputs in order). -/
theorem c10_frame :
    (∀ (videos : List Video) (d : PyVal) (rs : List Result),
      formatResults videos d = Except.ok rs → ∀ r ∈ rs, r.video ∈ videos) ∧
    (∀ videos : List Video, (createFallback videos).map Result.video = videos) ∧
    (∀ (cfg : Bool) (key : Option String) (remote : ℕ → Except PyErr String)
      (videos : List Video) (q : String) (rs : List Result) (n : ℕ),
      analyzeVideos cfg key remote videos q = Except.ok (rs, n) →
      ∀ r ∈ rs, r.video ∈ videos) := by
  refine ⟨fun videos d rs h => video_mem_of_formatResults h,
    map_video_createFallback, ?_⟩
  intro cfg key remote videos q rs n h r hr
  rcases analyzeVideos_ok_shape h with rfl | hsh | ⟨t, hsh⟩
  · cases hr
  · exact video_mem_createFallback (hsh ▸ hr)
  · rcases processResponse_ok_shape hsh with hsh2 | ⟨d, hd⟩
    · exact video_mem_createFallback (hsh2 ▸ hr)
    · exact video_mem_of_formatResults hd r hr

/-- C10 (witness): field passthrough applied to the concrete scored record
`resA` produced from `entry0` against `[vidA]`. -/
theorem c10_witness : resA.video ∈ [vidA] :=
  c10_frame.1 [vidA] (PyVal.dict [("analysis", PyVal.list [entry0])]) [resA]
    rfl resA (List.mem_singleton_self resA)

end GeminiAnalyzer
